import Mathlib

/-!
Verification of the multi-chain ERC-20 indexer store and indexer logic
(`app/database.py`, `app/indexer.py`) against its natural-language
specification.  The Python store operations are shallowly embedded: keyed
SQLite tables become association lists ordered by rowid, Python `dict`s
become insertion-ordered association lists, unbounded Python integers
become `Int`/`Nat`, and SQLite's 64-bit `CAST`/`SUM` arithmetic is modelled
explicitly with clamping and overflow errors.
-/

set_option autoImplicit false

/-- Zero address excluded from balance accounting (`ZERO_ADDRESS` in `app/database.py`). -/
def ZERO_ADDRESS : String := "0x0000000000000000000000000000000000000000"

/-- One decoded ERC-20 transfer tuple
`(block_number, tx_hash, log_index, from_addr, to_addr, value)` as passed to
`insert_transfers` and `update_balances_from_transfers`.  `value` is the
non-negative unbounded integer denoted by the decimal text stored in the
`transfers.value` column (the Python side stores `str(value)` and re-reads it
with `int(value)`, both exact). -/
structure Transfer where
  block_number : Nat
  tx_hash : String
  log_index : Nat
  from_address : String
  to_address : String
  value : Nat
deriving DecidableEq, Repr

/-- First row of a keyed table whose key equals `a`
(a `SELECT ... WHERE key = ?` point read; keys are unique in the real tables). -/
def alookup {κ α : Type} [DecidableEq κ] : List (κ × α) → κ → Option α
  | [], _ => none
  | (k, v) :: rest, a => if k = a then some v else alookup rest a

/-- Python `d.get(k, 0)` on the pending balance-changes dict. -/
def dictGet (d : List (String × Int)) (k : String) : Int :=
  match alookup d k with
  | some v => v
  | none => 0

/-- Python `d[k] = v`: update the value in place when the key is present
(keeping its position), otherwise append the new key (insertion order). -/
def dictSet (d : List (String × Int)) (k : String) (v : Int) : List (String × Int) :=
  match d with
  | [] => [(k, v)]
  | (k', v') :: rest => if k' = k then (k, v) :: rest else (k', v') :: dictSet rest k v

/-- Sender half of the delta-collection loop of `update_balances_from_transfers`
(`app/database.py` lines 314-315): subtract `value` at `from_addr` unless it is
the zero address. -/
def applyFromDelta (d : List (String × Int)) (t : Transfer) : List (String × Int) :=
  if t.from_address ≠ ZERO_ADDRESS
  then dictSet d t.from_address (dictGet d t.from_address - (t.value : Int))
  else d

/-- Recipient half of the delta-collection loop (`app/database.py` lines 316-317):
add `value` at `to_addr` unless it is the zero address. -/
def applyToDelta (d : List (String × Int)) (t : Transfer) : List (String × Int) :=
  if t.to_address ≠ ZERO_ADDRESS
  then dictSet d t.to_address (dictGet d t.to_address + (t.value : Int))
  else d

/-- One iteration of the delta-collection loop of `update_balances_from_transfers`
(`app/database.py` lines 310-317): the sender update followed by the recipient
update. -/
def applyTransferDelta (d : List (String × Int)) (t : Transfer) : List (String × Int) :=
  applyToDelta (applyFromDelta d t) t

/-- The `balance_changes` dict computed by `update_balances_from_transfers`. -/
def balance_changes (ts : List Transfer) : List (String × Int) :=
  ts.foldl applyTransferDelta []

/-- Removal of the rows keyed `a` from a keyed table
(a `DELETE ... WHERE key = ?`, and the implicit delete of `INSERT OR REPLACE`). -/
def tableDelete {α : Type} : List (String × α) → String → List (String × α)
  | [], _ => []
  | p :: rest, a => if p.1 = a then tableDelete rest a else p :: tableDelete rest a

/-- Embedding of `DELETE FROM balances WHERE chain_id = ? AND address = ?`
(restricted to one chain). -/
def balDelete (b : List (String × Nat)) (a : String) : List (String × Nat) :=
  tableDelete b a

/-- Embedding of `INSERT OR REPLACE INTO balances`: SQLite `REPLACE` deletes the
conflicting row and inserts a fresh row, which lands at the end in rowid order. -/
def balUpsert (b : List (String × Nat)) (a : String) (v : Nat) : List (String × Nat) :=
  balDelete b a ++ [(a, v)]

/-- One iteration of the application loop of `update_balances_from_transfers`
(`app/database.py` lines 320-340): read the current balance (0 when no row),
add the pending change, upsert when the result is positive, delete otherwise. -/
def applyBalanceChange (b : List (String × Nat)) (entry : String × Int) : List (String × Nat) :=
  let current : Int :=
    match alookup b entry.1 with
    | some n => (n : Int)
    | none => 0
  let new_balance := current + entry.2
  if 0 < new_balance then balUpsert b entry.1 new_balance.toNat
  else balDelete b entry.1

/-- Embedding of `Database.update_balances_from_transfers` (`app/database.py`
lines 296-342) restricted to one chain: collect net deltas into a dict, then
apply each entry to the balances table.  The early return on an empty transfer
list coincides with folding over an empty dict. -/
def update_balances_from_transfers (b : List (String × Nat)) (ts : List Transfer) :
    List (String × Nat) :=
  (balance_changes ts).foldl applyBalanceChange b

/-- Exact integer values of the transfers received by `a` (the `incoming` group of
the rebuild query: `WHERE to_address != ZERO GROUP BY to_address`). -/
def incomingVals (ts : List Transfer) (a : String) : List Int :=
  (ts.filter (fun t => t.to_address = a ∧ t.to_address ≠ ZERO_ADDRESS)).map
    (fun t => (t.value : Int))

/-- Exact integer values of the transfers sent by `a` (the `outgoing` group of the
rebuild query). -/
def outgoingVals (ts : List Transfer) (a : String) : List Int :=
  (ts.filter (fun t => t.from_address = a ∧ t.from_address ≠ ZERO_ADDRESS)).map
    (fun t => (t.value : Int))

/-- Net signed delta of address `a` over a transfer list, with exact unbounded
arithmetic: value added per occurrence as recipient and subtracted per occurrence
as sender, the zero address skipped on either side. -/
def netDelta (ts : List Transfer) (a : String) : Int :=
  (incomingVals ts a).sum - (outgoingVals ts a).sum

/-- Address `a` occurs as a non-zero sender or recipient in `ts`; exactly these
addresses receive an entry in the `balance_changes` dict. -/
def isAffected (ts : List Transfer) (a : String) : Prop :=
  a ≠ ZERO_ADDRESS ∧ ∃ t ∈ ts, t.from_address = a ∨ t.to_address = a

/-- Current balance of `a` as the Python code reads it:
`int(row["balance"]) if row else 0`. -/
def balCurrent (b : List (String × Nat)) (a : String) : Int :=
  match alookup b a with
  | some n => (n : Int)
  | none => 0

/-- Signed contribution of one transfer tuple to the balance of `a`
(zero address skipped on either side). -/
def deltaOf (t : Transfer) (a : String) : Int :=
  (if t.to_address = a ∧ a ≠ ZERO_ADDRESS then (t.value : Int) else 0)
    - (if t.from_address = a ∧ a ≠ ZERO_ADDRESS then (t.value : Int) else 0)

instance (ts : List Transfer) (a : String) : Decidable (isAffected ts a) := by
  unfold isAffected
  infer_instance

/-- Distinct non-zero addresses occurring in `ts`: the address set produced by the
FULL OUTER JOIN of the `incoming` and `outgoing` groups in `rebuild_all_balances`. -/
def addressesOf (ts : List Transfer) : List String :=
  ((ts.map Transfer.to_address ++ ts.map Transfer.from_address).filter
    (fun a => a ≠ ZERO_ADDRESS)).dedup

/-- Largest SQLite 64-bit INTEGER value. -/
def I64_MAX : Int := 9223372036854775807

/-- Smallest SQLite 64-bit INTEGER value. -/
def I64_MIN : Int := -9223372036854775808

/-- SQLite `CAST(value AS INTEGER)` on canonical non-negative decimal text: a prefix
integer greater than the 64-bit maximum is clamped to exactly that maximum. -/
def castValue (n : Nat) : Int := min (n : Int) I64_MAX

/-- One accumulation step of SQLite `SUM` over INTEGER values: 64-bit addition
that raises an `integer overflow` error (modelled as `none`) as soon as a
partial sum leaves the 64-bit range. -/
def sqliteSumStep (acc : Option Int) (v : Int) : Option Int :=
  acc.bind (fun s => if I64_MIN ≤ s + v ∧ s + v ≤ I64_MAX then some (s + v) else none)

/-- SQLite `SUM` over INTEGER values. -/
def sqliteSum (vals : List Int) : Option Int :=
  vals.foldl sqliteSumStep (some 0)

/-- One row of the `computed` CTE of `rebuild_all_balances`:
`COALESCE(total_in, 0) - COALESCE(total_out, 0)` with SQLite CAST and SUM. -/
def rebuildRow (ts : List Transfer) (a : String) : Option Int :=
  (sqliteSum ((ts.filter (fun t => t.to_address = a ∧ t.to_address ≠ ZERO_ADDRESS)).map
      (fun t => castValue t.value))).bind fun total_in =>
    (sqliteSum ((ts.filter (fun t => t.from_address = a ∧ t.from_address ≠ ZERO_ADDRESS)).map
        (fun t => castValue t.value))).bind fun total_out =>
      some (total_in - total_out)

/-- Rows the rebuild query inserts for the given address list, keeping only
strictly positive balances. -/
def rebuildRows (ts : List Transfer) : List String → Option (List (String × Nat))
  | [] => some []
  | a :: rest =>
    (rebuildRow ts a).bind fun v =>
      (rebuildRows ts rest).bind fun b =>
        some (if 0 < v then (a, v.toNat) :: b else b)

/-- Embedding of `Database.rebuild_all_balances` (`app/database.py` lines 344-377)
restricted to one chain: delete all balance rows, then insert the signed sum per
non-zero address where positive.  `none` models the INSERT statement aborting
with an `integer overflow` error, in which case nothing is committed. -/
def rebuild_all_balances (ts : List Transfer) : Option (List (String × Nat)) :=
  rebuildRows ts (addressesOf ts)

/-- Embedding of `Database.insert_transfers` (`app/database.py` lines 182-196)
restricted to one chain: `INSERT OR IGNORE` appends each tuple unless a stored
row already has the same `(tx_hash, log_index)`. -/
def insert_transfers (stored : List Transfer) (ts : List Transfer) : List Transfer :=
  ts.foldl
    (fun acc t =>
      if acc.any (fun u => u.tx_hash == t.tx_hash && u.log_index == t.log_index) then acc
      else acc ++ [t])
    stored

/-- Per-chain store state touched by one batch iteration of
`ChainIndexer.index_blocks`. -/
structure ChainState where
  transfers : List Transfer
  balances : List (String × Nat)
  last_indexed : Nat
deriving DecidableEq, Repr

/-- Steps 3-5 of batch processing in `ChainIndexer.index_blocks` (`app/indexer.py`
lines 363-370): under `if transfers:` run `insert_transfers` and
`update_balances_from_transfers`, then unconditionally
`update_last_indexed_block(chain_id, batch_end)`. -/
def processBatch (s : ChainState) (ts : List Transfer) (batch_end : Nat) : ChainState :=
  let s1 :=
    if ts.isEmpty then s
    else { s with
      transfers := insert_transfers s.transfers ts,
      balances := update_balances_from_transfers s.balances ts }
  { s1 with last_indexed := batch_end }

/-- Embedding of `Database.get_last_indexed_block` (`app/database.py` lines 199-207):
the chain's `sync_state` row value, or 0 when the chain has no row. -/
def get_last_indexed_block (s : List (Nat × Nat)) (chain_id : Nat) : Nat :=
  match alookup s chain_id with
  | some v => v
  | none => 0

/-- Embedding of `Database.update_last_indexed_block` (`app/database.py` lines 209-216):
an unconditional `UPDATE sync_state SET last_indexed_block = ? WHERE chain_id = ?`,
which rewrites every matching row and is a no-op when no row matches. -/
def update_last_indexed_block (s : List (Nat × Nat)) (chain_id : Nat) (n : Nat) :
    List (Nat × Nat) :=
  s.map (fun p => if p.1 = chain_id then (p.1, n) else p)

/-- Descending comparison used by `ORDER BY CAST(balance AS INTEGER) DESC`. -/
def holderGE (x y : String × Nat) : Prop := castValue y.2 ≤ castValue x.2

instance : DecidableRel holderGE :=
  fun x y => inferInstanceAs (Decidable (castValue y.2 ≤ castValue x.2))

instance : IsTotal (String × Nat) holderGE :=
  ⟨fun x y => (le_total (castValue x.2) (castValue y.2)).symm⟩

instance : IsTrans (String × Nat) holderGE :=
  ⟨fun _ _ _ hab hbc => le_trans hbc hab⟩

/-- Embedding of `Database.get_holders_with_balances` (`app/database.py` lines
379-408, `eoa_only=False` branch) restricted to one chain: all balance rows
ordered by `CAST(balance AS INTEGER) DESC`.  Rows whose casts clamp to the same
64-bit value are ties; the model resolves them stably in table (rowid) order. -/
def get_holders_with_balances (b : List (String × Nat)) : List (String × Nat) :=
  List.insertionSort holderGE b

/-- The `SMART_WALLET_PATTERNS` whitelist (`app/indexer.py` lines 22-26). -/
def SMART_WALLET_PATTERNS : List String :=
  ["0xef01", "0xef0100", "0x363d3d373d3d3d363d73"]

/-- Embedding of `is_smart_wallet` (`app/indexer.py` lines 28-49): empty or `0x`
bytecode is not a smart wallet; otherwise compare the lowercased code against the
lowercased patterns by prefix. -/
def is_smart_wallet (code : String) : Bool :=
  if code = "" ∨ code = "0x" then false
  else SMART_WALLET_PATTERNS.any (fun p => code.toLower.startsWith p.toLower)

/-- Classification of one address in `ChainIndexer.batch_check_eoa`
(`app/indexer.py` lines 147-162).  The argument models the JSON-RPC outcome:
`none` = no response entry with a matching id or no `result` field (assume
contract); `some none` = a `result` field holding JSON null; `some (some code)`
= the obtained bytecode string. -/
def batch_check_eoa_entry : Option (Option String) → Bool
  | none => false
  | some none => true
  | some (some code) =>
    if code = "0x" ∨ code = "" then true
    else if is_smart_wallet code then true
    else false

/-- Embedding of one `INSERT OR REPLACE INTO address_types` row write
(restricted to one chain). -/
def typeUpsert (types : List (String × Bool)) (a : String) (e : Bool) : List (String × Bool) :=
  tableDelete types a ++ [(a, e)]

/-- Embedding of `Database.batch_set_address_types` (`app/database.py` lines 286-293). -/
def batch_set_address_types (types : List (String × Bool)) (updates : List (String × Bool)) :
    List (String × Bool) :=
  updates.foldl (fun acc u => typeUpsert acc u.1 u.2) types

/-- Embedding of `Database.get_contract_addresses` (`app/database.py` lines 461-469):
addresses of rows with `is_eoa = 0`. -/
def get_contract_addresses (types : List (String × Bool)) : List String :=
  (types.filter (fun p => p.2 = false)).map Prod.fst

/-- Embedding of `ChainIndexer.recheck_smart_wallets` (`app/indexer.py` lines
230-270): load the contract addresses, classify each (`oracle a` is the `is_eoa`
verdict `batch_check_eoa` returns for `a`), and upsert `(addr, True)` exactly for
those now classified as EOA.  The source chunks the contract list into
sub-batches of 100 and upserts each sub-batch in turn, which composes to the
same single fold over the whole list. -/
def recheck_smart_wallets (types : List (String × Bool)) (oracle : String → Bool) :
    List (String × Bool) :=
  batch_set_address_types types
    (((get_contract_addresses types).filter oracle).map (fun a => (a, true)))

/-- The `ChainIndexer.DEFAULT_BATCH_SIZES` table (`app/indexer.py` lines 70-75). -/
def DEFAULT_BATCH_SIZES : List (Nat × Nat) :=
  [(1, 1000), (369, 2000), (8453, 10000), (146, 10000)]

/-- `self._min_batch_size` (`app/indexer.py` line 91). -/
def MIN_BATCH : Nat := 100

/-- Initial `self._batch_size` (`app/indexer.py` line 90):
`DEFAULT_BATCH_SIZES.get(chain_id, settings.batch_size)`.  The global
`settings.batch_size` defaults to 10000 but is an arbitrary environment-configured
integer (`app/config.py` line 26, no minimum enforced). -/
def initial_batch_size (chain_id : Nat) (settings_batch_size : Nat) : Nat :=
  match alookup DEFAULT_BATCH_SIZES chain_id with
  | some v => v
  | none => settings_batch_size

/-- Outcome of one iteration of the `index_blocks` loop (`app/indexer.py` lines
355-407): the iteration succeeds, fails with a range/too large/timeout/exceeded
error (which `fetch_transfer_events` halves the batch size for, lines 319-329,
before `index_blocks` counts the error and retries), or fails with any other
error (counted; after 3 consecutive errors `index_blocks` halves the batch size
itself, lines 400-404). -/
inductive BatchEvent where
  | success
  | rangeError
  | otherError
deriving DecidableEq, Repr

/-- Adaptive-batching scratch state of a `ChainIndexer`: `self._batch_size` and the
`consecutive_errors` counter of `index_blocks`. -/
structure IndexerState where
  batch_size : Nat
  consecutive_errors : Nat
deriving DecidableEq, Repr

/-- Batch-size adaptation of one loop iteration of `index_blocks`.
`max MIN_BATCH (batch_size / 2)` is the source's
`max(self._min_batch_size, self._batch_size // 2)`. -/
def stepBatch (s : IndexerState) : BatchEvent → IndexerState
  | .success => { s with consecutive_errors := 0 }
  | .rangeError =>
    { batch_size := max MIN_BATCH (s.batch_size / 2),
      consecutive_errors := s.consecutive_errors + 1 }
  | .otherError =>
    let ce := s.consecutive_errors + 1
    if 3 ≤ ce ∧ MIN_BATCH < s.batch_size then
      { batch_size := max MIN_BATCH (s.batch_size / 2), consecutive_errors := ce }
    else { s with consecutive_errors := ce }

/-- Run of the adaptive-batching state machine over a sequence of iteration outcomes. -/
def runBatchEvents (s : IndexerState) (events : List BatchEvent) : IndexerState :=
  events.foldl stepBatch s

/-- A balance-writing store operation: `update_balances_from_transfers` with a
batch of transfer tuples, or `rebuild_all_balances` over the transfers stored at
that moment. -/
inductive BalanceOp where
  | update (ts : List Transfer)
  | rebuild (ts : List Transfer)

/-- Effect of one balance-writing operation on the balances table.  A rebuild
whose INSERT aborts with `integer overflow` commits nothing, leaving the table
unchanged. -/
def applyBalanceOp (b : List (String × Nat)) : BalanceOp → List (String × Nat)
  | .update ts => update_balances_from_transfers b ts
  | .rebuild ts =>
    match rebuild_all_balances ts with
    | some r => r
    | none => b

/-- Balances table after a sequence of balance-writing operations starting from
an empty store. -/
def runBalanceOps (ops : List BalanceOp) : List (String × Nat) :=
  ops.foldl applyBalanceOp []

/-! Helper lemmas about keyed-table and dict lookups. -/

theorem alookup_eq_none_iff {κ α : Type} [DecidableEq κ] (l : List (κ × α)) (k : κ) :
    alookup l k = none ↔ k ∉ l.map Prod.fst := by
  induction l with
  | nil => simp [alookup]
  | cons p rest ih =>
    obtain ⟨k', v'⟩ := p
    by_cases h : k' = k
    · subst h
      simp [alookup]
    · simp only [alookup, if_neg h, List.map_cons, List.mem_cons, ih]
      constructor
      · rintro hn (rfl | hm)
        · exact h rfl
        · exact hn hm
      · intro hn hm
        exact hn (Or.inr hm)

theorem alookup_eq_some_iff_mem {κ α : Type} [DecidableEq κ] (l : List (κ × α))
    (h : (l.map Prod.fst).Nodup) (k : κ) (v : α) :
    alookup l k = some v ↔ (k, v) ∈ l := by
  induction l with
  | nil => simp [alookup]
  | cons p rest ih =>
    obtain ⟨k', v'⟩ := p
    simp only [List.map_cons, List.nodup_cons] at h
    by_cases hk : k' = k
    · subst hk
      have hl : alookup ((k', v') :: rest) k' = some v' := by simp [alookup]
      rw [hl, Option.some_inj]
      constructor
      · rintro rfl
        exact List.mem_cons_self _ _
      · intro hm
        rcases List.mem_cons.mp hm with heq | hmem
        · exact (congrArg Prod.snd heq).symm
        · exact absurd (List.mem_map_of_mem Prod.fst hmem) h.1
    · simp only [alookup, if_neg hk, ih h.2, List.mem_cons]
      constructor
      · exact Or.inr
      · rintro (heq | hmem)
        · cases heq
          exact absurd rfl hk
        · exact hmem

theorem alookup_append {κ α : Type} [DecidableEq κ] (l₁ l₂ : List (κ × α)) (a : κ) :
    alookup (l₁ ++ l₂) a =
      match alookup l₁ a with
      | some v => some v
      | none => alookup l₂ a := by
  induction l₁ with
  | nil => simp [alookup]
  | cons p rest ih =>
    obtain ⟨k, v⟩ := p
    by_cases h : k = a <;> simp [alookup, h, ih]

theorem tableDelete_alookup {α : Type} (l : List (String × α)) (k a : String) :
    alookup (tableDelete l k) a = if a = k then none else alookup l a := by
  induction l with
  | nil => by_cases h : a = k <;> simp [tableDelete, alookup, h]
  | cons p rest ih =>
    obtain ⟨k', v'⟩ := p
    simp only [tableDelete]
    by_cases hk : k' = k
    · rw [if_pos hk, ih]
      by_cases ha : a = k
      · rw [if_pos ha, if_pos ha]
      · have hk'a : ¬ k' = a := fun h => ha (h ▸ hk)
        rw [if_neg ha, if_neg ha]
        simp [alookup, hk'a]
    · rw [if_neg hk]
      by_cases ha : k' = a
      · subst ha
        simp [alookup, ih, fun h : k' = k => hk h]
      · simp [alookup, ha, ih]

theorem upsert_alookup {α : Type} (l : List (String × α)) (k : String) (v : α) (a : String) :
    alookup (tableDelete l k ++ [(k, v)]) a = if a = k then some v else alookup l a := by
  rw [alookup_append, tableDelete_alookup]
  by_cases h : a = k
  · simp [h, alookup]
  · have h' : ¬ k = a := fun hh => h hh.symm
    cases hl : alookup l a <;> simp [alookup, h, h', hl]

theorem mem_tableDelete {α : Type} (l : List (String × α)) (k : String) (p : String × α)
    (hp : p ∈ tableDelete l k) : p ∈ l := by
  induction l with
  | nil => simp [tableDelete] at hp
  | cons q rest ih =>
    simp only [tableDelete] at hp
    by_cases hq : q.1 = k
    · rw [if_pos hq] at hp
      exact List.mem_cons_of_mem _ (ih hp)
    · rw [if_neg hq] at hp
      rcases List.mem_cons.mp hp with rfl | hm
      · exact List.mem_cons_self _ _
      · exact List.mem_cons_of_mem _ (ih hm)

theorem dictSet_alookup (d : List (String × Int)) (k : String) (v : Int) (a : String) :
    alookup (dictSet d k v) a = if k = a then some v else alookup d a := by
  induction d with
  | nil => simp [dictSet, alookup]
  | cons p rest ih =>
    obtain ⟨k', v'⟩ := p
    simp only [dictSet]
    by_cases hk : k' = k
    · rw [if_pos hk]
      by_cases ha : k = a
      · simp [alookup, ha]
      · have hk'a : ¬ k' = a := fun h => ha (hk ▸ h)
        simp [alookup, ha, hk'a]
    · rw [if_neg hk]
      by_cases ha : k' = a
      · subst ha
        have hka : ¬ k = k' := fun h => hk h.symm
        simp [alookup, hka]
      · simp [alookup, ha, ih]

theorem mem_keys_dictSet (d : List (String × Int)) (k : String) (v : Int) (a : String) :
    a ∈ (dictSet d k v).map Prod.fst ↔ a ∈ d.map Prod.fst ∨ a = k := by
  induction d with
  | nil =>
    simp only [dictSet, List.map_cons, List.map_nil, List.mem_cons]
    constructor
    · rintro (rfl | h)
      · exact Or.inr rfl
      · simp at h
    · rintro (h | rfl)
      · simp at h
      · exact Or.inl rfl
  | cons p rest ih =>
    obtain ⟨k', v'⟩ := p
    simp only [dictSet]
    by_cases hk : k' = k
    · rw [if_pos hk]
      subst hk
      simp only [List.map_cons, List.mem_cons]
      tauto
    · rw [if_neg hk]
      simp only [List.map_cons, List.mem_cons, ih]
      tauto

theorem dictSet_keys_nodup (d : List (String × Int)) (k : String) (v : Int)
    (h : (d.map Prod.fst).Nodup) : ((dictSet d k v).map Prod.fst).Nodup := by
  induction d with
  | nil => simp [dictSet]
  | cons p rest ih =>
    obtain ⟨k', v'⟩ := p
    simp only [List.map_cons, List.nodup_cons] at h
    simp only [dictSet]
    by_cases hk : k' = k
    · rw [if_pos hk]
      subst hk
      simpa using h
    · rw [if_neg hk]
      simp only [List.map_cons, List.nodup_cons]
      refine ⟨?_, ih h.2⟩
      rw [mem_keys_dictSet]
      rintro (hmem | rfl)
      · exact h.1 hmem
      · exact hk rfl

/-! Characterization of the balance-changes dict. -/

theorem mem_keys_iff_alookup_ne_none {κ α : Type} [DecidableEq κ] (l : List (κ × α)) (k : κ) :
    k ∈ l.map Prod.fst ↔ alookup l k ≠ none := by
  rw [Ne, alookup_eq_none_iff, not_not]

theorem applyFromDelta_alookup (d : List (String × Int)) (t : Transfer) (a : String) :
    alookup (applyFromDelta d t) a =
      if t.from_address = a ∧ a ≠ ZERO_ADDRESS
      then some (dictGet d a - (t.value : Int))
      else alookup d a := by
  unfold applyFromDelta
  by_cases hf : t.from_address = a
  · subst hf
    by_cases hz : t.from_address = ZERO_ADDRESS
    · rw [if_neg (by simpa using hz), if_neg (by simp [hz])]
    · rw [if_pos hz, if_pos ⟨rfl, hz⟩, dictSet_alookup, if_pos rfl]
  · by_cases hz : t.from_address = ZERO_ADDRESS
    · rw [if_neg (by simpa using hz), if_neg (by simp [hf])]
    · rw [if_pos hz, dictSet_alookup, if_neg hf, if_neg (by simp [hf])]

theorem applyToDelta_alookup (d : List (String × Int)) (t : Transfer) (a : String) :
    alookup (applyToDelta d t) a =
      if t.to_address = a ∧ a ≠ ZERO_ADDRESS
      then some (dictGet d a + (t.value : Int))
      else alookup d a := by
  unfold applyToDelta
  by_cases ht : t.to_address = a
  · subst ht
    by_cases hz : t.to_address = ZERO_ADDRESS
    · rw [if_neg (by simpa using hz), if_neg (by simp [hz])]
    · rw [if_pos hz, if_pos ⟨rfl, hz⟩, dictSet_alookup, if_pos rfl]
  · by_cases hz : t.to_address = ZERO_ADDRESS
    · rw [if_neg (by simpa using hz), if_neg (by simp [ht])]
    · rw [if_pos hz, dictSet_alookup, if_neg ht, if_neg (by simp [ht])]

theorem applyTransferDelta_alookup (d : List (String × Int)) (t : Transfer) (a : String) :
    alookup (applyTransferDelta d t) a =
      if (t.from_address = a ∨ t.to_address = a) ∧ a ≠ ZERO_ADDRESS
      then some (dictGet d a + deltaOf t a)
      else alookup d a := by
  unfold applyTransferDelta
  rw [applyToDelta_alookup]
  by_cases hz : a = ZERO_ADDRESS
  · rw [if_neg (by simp [hz]), if_neg (by simp [hz]), applyFromDelta_alookup,
      if_neg (by simp [hz])]
  · by_cases ht : t.to_address = a
    · rw [if_pos ⟨ht, hz⟩, if_pos ⟨Or.inr ht, hz⟩]
      by_cases hf : t.from_address = a
      · have hg : dictGet (applyFromDelta d t) a = dictGet d a - (t.value : Int) := by
          simp [dictGet, applyFromDelta_alookup, hf, hz]
        have hd : deltaOf t a = 0 := by
          unfold deltaOf
          rw [if_pos ⟨ht, hz⟩, if_pos ⟨hf, hz⟩, sub_self]
        have harith : dictGet d a - (t.value : Int) + (t.value : Int)
            = dictGet d a + deltaOf t a := by
          rw [hd]
          ring
        rw [hg, harith]
      · have hg : dictGet (applyFromDelta d t) a = dictGet d a := by
          simp [dictGet, applyFromDelta_alookup, hf]
        have hd : deltaOf t a = (t.value : Int) := by
          unfold deltaOf
          rw [if_pos ⟨ht, hz⟩, if_neg (by simp [hf]), sub_zero]
        rw [hg, hd]
    · rw [if_neg (by simp [ht]), applyFromDelta_alookup]
      by_cases hf : t.from_address = a
      · rw [if_pos ⟨hf, hz⟩, if_pos ⟨Or.inl hf, hz⟩]
        have hd : deltaOf t a = -(t.value : Int) := by
          unfold deltaOf
          rw [if_neg (by simp [ht]), if_pos ⟨hf, hz⟩, zero_sub]
        have harith : dictGet d a - (t.value : Int) = dictGet d a + deltaOf t a := by
          rw [hd]
          ring
        rw [harith]
      · rw [if_neg (by simp [hf]), if_neg (by simp [hf, ht])]

theorem deltaOf_eq_zero (t : Transfer) (a : String)
    (h : ¬ ((t.from_address = a ∨ t.to_address = a) ∧ a ≠ ZERO_ADDRESS)) :
    deltaOf t a = 0 := by
  unfold deltaOf
  rcases not_and_or.mp h with h1 | h2
  · push_neg at h1
    rw [if_neg (by tauto), if_neg (by tauto)]
    ring
  · rw [not_not] at h2
    rw [if_neg (by tauto), if_neg (by tauto)]
    ring

theorem applyTransferDelta_dictGet (d : List (String × Int)) (t : Transfer) (a : String) :
    dictGet (applyTransferDelta d t) a = dictGet d a + deltaOf t a := by
  by_cases h : (t.from_address = a ∨ t.to_address = a) ∧ a ≠ ZERO_ADDRESS
  · unfold dictGet
    rw [applyTransferDelta_alookup, if_pos h]
    rfl
  · unfold dictGet
    rw [applyTransferDelta_alookup, if_neg h, deltaOf_eq_zero t a h, add_zero]

theorem applyTransferDelta_mem_keys (d : List (String × Int)) (t : Transfer) (a : String) :
    a ∈ (applyTransferDelta d t).map Prod.fst ↔
      ((t.from_address = a ∨ t.to_address = a) ∧ a ≠ ZERO_ADDRESS) ∨ a ∈ d.map Prod.fst := by
  rw [mem_keys_iff_alookup_ne_none, mem_keys_iff_alookup_ne_none, applyTransferDelta_alookup]
  by_cases hc : (t.from_address = a ∨ t.to_address = a) ∧ a ≠ ZERO_ADDRESS
  · simp [hc]
  · simp [hc]

theorem sum_map_filter_cons {α : Type} (p : α → Bool) (f : α → Int) (x : α) (l : List α) :
    ((List.filter p (x :: l)).map f).sum
      = (if p x then f x else 0) + ((List.filter p l).map f).sum := by
  rw [List.filter_cons]
  by_cases h : p x = true <;> simp [h]

theorem netDelta_nil (a : String) : netDelta [] a = 0 := by
  simp [netDelta, incomingVals, outgoingVals]

theorem netDelta_cons (t : Transfer) (ts : List Transfer) (a : String) :
    netDelta (t :: ts) a = deltaOf t a + netDelta ts a := by
  unfold netDelta incomingVals outgoingVals
  rw [sum_map_filter_cons, sum_map_filter_cons]
  simp only [decide_eq_true_eq]
  unfold deltaOf
  have hin : (if t.to_address = a ∧ t.to_address ≠ ZERO_ADDRESS then (t.value : Int) else 0)
      = if t.to_address = a ∧ a ≠ ZERO_ADDRESS then (t.value : Int) else 0 := by
    by_cases h : t.to_address = a
    · subst h
      rfl
    · rw [if_neg (by simp [h]), if_neg (by simp [h])]
  have hout : (if t.from_address = a ∧ t.from_address ≠ ZERO_ADDRESS then (t.value : Int) else 0)
      = if t.from_address = a ∧ a ≠ ZERO_ADDRESS then (t.value : Int) else 0 := by
    by_cases h : t.from_address = a
    · subst h
      rfl
    · rw [if_neg (by simp [h]), if_neg (by simp [h])]
  rw [hin, hout]
  ring

theorem netDelta_append (ts₁ ts₂ : List Transfer) (a : String) :
    netDelta (ts₁ ++ ts₂) a = netDelta ts₁ a + netDelta ts₂ a := by
  induction ts₁ with
  | nil => rw [List.nil_append, netDelta_nil, zero_add]
  | cons t rest ih => rw [List.cons_append, netDelta_cons, netDelta_cons, ih, add_assoc]

theorem isAffected_cons (t : Transfer) (ts : List Transfer) (a : String) :
    isAffected (t :: ts) a ↔
      ((t.from_address = a ∨ t.to_address = a) ∧ a ≠ ZERO_ADDRESS) ∨ isAffected ts a := by
  unfold isAffected
  constructor
  · rintro ⟨hz, w, hw, hdisj⟩
    rcases List.mem_cons.mp hw with rfl | hmem
    · exact Or.inl ⟨hdisj, hz⟩
    · exact Or.inr ⟨hz, w, hmem, hdisj⟩
  · rintro (⟨hdisj, hz⟩ | ⟨hz, w, hmem, hdisj⟩)
    · exact ⟨hz, t, List.mem_cons_self _ _, hdisj⟩
    · exact ⟨hz, w, List.mem_cons_of_mem _ hmem, hdisj⟩

theorem foldl_applyTransferDelta_alookup (ts : List Transfer) (d : List (String × Int))
    (a : String) :
    alookup (ts.foldl applyTransferDelta d) a =
      if isAffected ts a ∨ a ∈ d.map Prod.fst
      then some (dictGet d a + netDelta ts a)
      else alookup d a := by
  induction ts generalizing d with
  | nil =>
    rw [List.foldl_nil, netDelta_nil]
    have hna : ¬ isAffected [] a := by simp [isAffected]
    by_cases h : a ∈ d.map Prod.fst
    · rw [if_pos (Or.inr h)]
      rw [mem_keys_iff_alookup_ne_none] at h
      cases hv : alookup d a with
      | none => exact absurd hv h
      | some v => simp [dictGet, hv]
    · rw [if_neg (by tauto)]
  | cons t rest ih =>
    rw [List.foldl_cons, ih]
    simp only [applyTransferDelta_dictGet, applyTransferDelta_mem_keys,
      applyTransferDelta_alookup, netDelta_cons, isAffected_cons]
    by_cases h1 : (t.from_address = a ∨ t.to_address = a) ∧ a ≠ ZERO_ADDRESS <;>
      by_cases h2 : isAffected rest a <;>
      by_cases h3 : a ∈ d.map Prod.fst <;>
      simp [h1, h2, h3, add_assoc]

theorem balance_changes_alookup (ts : List Transfer) (a : String) :
    alookup (balance_changes ts) a =
      if isAffected ts a then some (netDelta ts a) else none := by
  unfold balance_changes
  rw [foldl_applyTransferDelta_alookup]
  simp [alookup, dictGet]

theorem applyTransferDelta_keys_nodup (d : List (String × Int)) (t : Transfer)
    (h : (d.map Prod.fst).Nodup) : ((applyTransferDelta d t).map Prod.fst).Nodup := by
  unfold applyTransferDelta applyFromDelta applyToDelta
  split_ifs with h1 h2 h3
  · exact dictSet_keys_nodup _ _ _ (dictSet_keys_nodup _ _ _ h)
  · exact dictSet_keys_nodup _ _ _ h
  · exact dictSet_keys_nodup _ _ _ h
  · exact h

theorem balance_changes_keys_nodup (ts : List Transfer) :
    ((balance_changes ts).map Prod.fst).Nodup := by
  unfold balance_changes
  have hgen : ∀ (d : List (String × Int)), (d.map Prod.fst).Nodup →
      ((ts.foldl applyTransferDelta d).map Prod.fst).Nodup := by
    induction ts with
    | nil => exact fun d h => h
    | cons t rest ih =>
      intro d h
      exact ih _ (applyTransferDelta_keys_nodup d t h)
  exact hgen [] (by simp)

theorem balance_changes_zero_not_mem (ts : List Transfer) :
    ZERO_ADDRESS ∉ (balance_changes ts).map Prod.fst := by
  rw [mem_keys_iff_alookup_ne_none, balance_changes_alookup,
    if_neg (fun h : isAffected ts ZERO_ADDRESS => h.1 rfl)]
  simp

/-! Characterization of the balance-application loop. -/

theorem balUpsert_alookup (b : List (String × Nat)) (k : String) (v : Nat) (a : String) :
    alookup (balUpsert b k v) a = if a = k then some v else alookup b a := by
  unfold balUpsert balDelete
  exact upsert_alookup b k v a

theorem balDelete_alookup (b : List (String × Nat)) (k a : String) :
    alookup (balDelete b k) a = if a = k then none else alookup b a :=
  tableDelete_alookup b k a

theorem applyBalanceChange_alookup_self (b : List (String × Nat)) (k : String) (q : Int) :
    alookup (applyBalanceChange b (k, q)) k =
      if 0 < balCurrent b k + q then some ((balCurrent b k + q).toNat) else none := by
  unfold applyBalanceChange balCurrent
  cases hv : alookup b k with
  | none =>
    simp only [hv]
    by_cases h : 0 < (0 : Int) + q
    · rw [if_pos h, if_pos h, balUpsert_alookup, if_pos rfl]
    · rw [if_neg h, if_neg h, balDelete_alookup, if_pos rfl]
  | some n =>
    simp only [hv]
    by_cases h : 0 < (n : Int) + q
    · rw [if_pos h, if_pos h, balUpsert_alookup, if_pos rfl]
    · rw [if_neg h, if_neg h, balDelete_alookup, if_pos rfl]

theorem applyBalanceChange_alookup_other (b : List (String × Nat)) (k : String) (q : Int)
    (a : String) (h : a ≠ k) :
    alookup (applyBalanceChange b (k, q)) a = alookup b a := by
  unfold applyBalanceChange
  dsimp only
  split_ifs with h1
  · rw [balUpsert_alookup, if_neg h]
  · rw [balDelete_alookup, if_neg h]

theorem applyBalanceChange_balCurrent_other (b : List (String × Nat)) (k : String) (q : Int)
    (a : String) (h : a ≠ k) :
    balCurrent (applyBalanceChange b (k, q)) a = balCurrent b a := by
  unfold balCurrent
  rw [applyBalanceChange_alookup_other b k q a h]

theorem foldl_applyBalanceChange_alookup (entries : List (String × Int)) :
    ∀ (b : List (String × Nat)) (a : String), (entries.map Prod.fst).Nodup →
      alookup (entries.foldl applyBalanceChange b) a =
        (alookup entries a).elim (alookup b a)
          (fun q => if 0 < balCurrent b a + q
            then some ((balCurrent b a + q).toNat) else none) := by
  induction entries with
  | nil =>
    intro b a _
    simp [alookup]
  | cons e rest ih =>
    intro b a hnd
    obtain ⟨k, q⟩ := e
    simp only [List.map_cons, List.nodup_cons] at hnd
    rw [List.foldl_cons, ih (applyBalanceChange b (k, q)) a hnd.2]
    by_cases hak : a = k
    · subst hak
      have hrest : alookup rest a = none := by
        rw [alookup_eq_none_iff]
        exact hnd.1
      have hcons : alookup ((a, q) :: rest) a = some q := by simp [alookup]
      rw [hrest, hcons]
      simp only [Option.elim_none, Option.elim_some]
      exact applyBalanceChange_alookup_self b a q
    · have hcons : alookup ((k, q) :: rest) a = alookup rest a := by
        have hka : ¬ k = a := fun h => hak h.symm
        simp [alookup, hka]
      rw [hcons]
      cases hr : alookup rest a with
      | none =>
        simp only [Option.elim_none]
        exact applyBalanceChange_alookup_other b k q a hak
      | some q' =>
        simp only [Option.elim_some, applyBalanceChange_balCurrent_other b k q a hak]

theorem update_balances_alookup (b : List (String × Nat)) (ts : List Transfer) (a : String) :
    alookup (update_balances_from_transfers b ts) a =
      if isAffected ts a
      then (if 0 < balCurrent b a + netDelta ts a
            then some ((balCurrent b a + netDelta ts a).toNat) else none)
      else alookup b a := by
  unfold update_balances_from_transfers
  rw [foldl_applyBalanceChange_alookup (balance_changes ts) b a (balance_changes_keys_nodup ts),
    balance_changes_alookup]
  by_cases h : isAffected ts a
  · rw [if_pos h, if_pos h]
    simp only [Option.elim_some]
  · rw [if_neg h, if_neg h]
    simp only [Option.elim_none]

/-! Membership lemmas for the positivity and zero-address invariant. -/

theorem mem_balUpsert (b : List (String × Nat)) (k : String) (v : Nat) (p : String × Nat)
    (hp : p ∈ balUpsert b k v) : p ∈ b ∨ p = (k, v) := by
  unfold balUpsert balDelete at hp
  rcases List.mem_append.mp hp with h | h
  · exact Or.inl (mem_tableDelete _ _ _ h)
  · rcases List.mem_singleton.mp h with rfl
    exact Or.inr rfl

theorem mem_applyBalanceChange (b : List (String × Nat)) (e : String × Int) (p : String × Nat)
    (hp : p ∈ applyBalanceChange b e) : p ∈ b ∨ (p.1 = e.1 ∧ 0 < p.2) := by
  unfold applyBalanceChange at hp
  dsimp only at hp
  split_ifs at hp with h
  · rcases mem_balUpsert _ _ _ _ hp with h1 | h1
    · exact Or.inl h1
    · right
      subst h1
      refine ⟨rfl, ?_⟩
      simp only
      omega
  · exact Or.inl (mem_tableDelete _ _ _ hp)

theorem mem_foldl_applyBalanceChange (entries : List (String × Int)) :
    ∀ (b : List (String × Nat)) (p : String × Nat),
      p ∈ entries.foldl applyBalanceChange b →
      p ∈ b ∨ ∃ e ∈ entries, p.1 = e.1 ∧ 0 < p.2 := by
  induction entries with
  | nil =>
    intro b p hp
    exact Or.inl hp
  | cons e rest ih =>
    intro b p hp
    rw [List.foldl_cons] at hp
    rcases ih _ p hp with h | ⟨e', he', hpe⟩
    · rcases mem_applyBalanceChange b e p h with h1 | h1
      · exact Or.inl h1
      · exact Or.inr ⟨e, List.mem_cons_self _ _, h1⟩
    · exact Or.inr ⟨e', List.mem_cons_of_mem _ he', hpe⟩

theorem mem_update_balances (b : List (String × Nat)) (ts : List Transfer) (p : String × Nat)
    (hp : p ∈ update_balances_from_transfers b ts) :
    p ∈ b ∨ (p.1 ≠ ZERO_ADDRESS ∧ 0 < p.2) := by
  unfold update_balances_from_transfers at hp
  rcases mem_foldl_applyBalanceChange (balance_changes ts) b p hp with h | ⟨e, he, hpe⟩
  · exact Or.inl h
  · right
    refine ⟨?_, hpe.2⟩
    rw [hpe.1]
    intro hz
    exact balance_changes_zero_not_mem ts (hz ▸ List.mem_map_of_mem Prod.fst he)

/-! The rebuild query under exact-arithmetic hypotheses. -/

theorem sqliteSum_foldl (vals : List Int) :
    ∀ (s : Int), (∀ v ∈ vals, 0 ≤ v) → 0 ≤ s → s + vals.sum ≤ I64_MAX →
      vals.foldl sqliteSumStep (some s) = some (s + vals.sum) := by
  induction vals with
  | nil =>
    intro s _ _ _
    simp
  | cons v rest ih =>
    intro s h0 hs hmax
    have hv : 0 ≤ v := h0 v (List.mem_cons_self _ _)
    have hrest : 0 ≤ rest.sum :=
      List.sum_nonneg (fun x hx => h0 x (List.mem_cons_of_mem _ hx))
    rw [List.sum_cons] at hmax
    have h1 : I64_MIN ≤ s + v := by
      have : I64_MIN ≤ (0 : Int) := by norm_num [I64_MIN]
      omega
    have h2 : s + v ≤ I64_MAX := by omega
    have hstep : sqliteSumStep (some s) v = some (s + v) := by
      unfold sqliteSumStep
      rw [Option.some_bind, if_pos ⟨h1, h2⟩]
    rw [List.foldl_cons, hstep, ih (s + v) (fun x hx => h0 x (List.mem_cons_of_mem _ hx))
      (by omega) (by omega)]
    rw [List.sum_cons]
    congr 1
    ring

theorem sqliteSum_eq_sum (vals : List Int) (h0 : ∀ v ∈ vals, 0 ≤ v)
    (hmax : vals.sum ≤ I64_MAX) : sqliteSum vals = some vals.sum := by
  unfold sqliteSum
  have := sqliteSum_foldl vals 0 h0 le_rfl (by omega)
  simpa using this

theorem castValue_eq (n : Nat) (h : (n : Int) ≤ I64_MAX) : castValue n = (n : Int) :=
  min_eq_left h

theorem rebuildRow_eq (ts : List Transfer) (a : String)
    (hval : ∀ t ∈ ts, (t.value : Int) ≤ I64_MAX)
    (hin : (incomingVals ts a).sum ≤ I64_MAX)
    (hout : (outgoingVals ts a).sum ≤ I64_MAX) :
    rebuildRow ts a = some (netDelta ts a) := by
  unfold rebuildRow
  have hmapin : (ts.filter (fun t => t.to_address = a ∧ t.to_address ≠ ZERO_ADDRESS)).map
      (fun t => castValue t.value) = incomingVals ts a := by
    unfold incomingVals
    apply List.map_congr_left
    intro t ht
    exact castValue_eq t.value (hval t (List.mem_of_mem_filter ht))
  have hmapout : (ts.filter (fun t => t.from_address = a ∧ t.from_address ≠ ZERO_ADDRESS)).map
      (fun t => castValue t.value) = outgoingVals ts a := by
    unfold outgoingVals
    apply List.map_congr_left
    intro t ht
    exact castValue_eq t.value (hval t (List.mem_of_mem_filter ht))
  have hin0 : ∀ v ∈ incomingVals ts a, 0 ≤ v := by
    intro v hv
    unfold incomingVals at hv
    rcases List.mem_map.mp hv with ⟨t, _, rfl⟩
    exact Int.natCast_nonneg _
  have hout0 : ∀ v ∈ outgoingVals ts a, 0 ≤ v := by
    intro v hv
    unfold outgoingVals at hv
    rcases List.mem_map.mp hv with ⟨t, _, rfl⟩
    exact Int.natCast_nonneg _
  rw [hmapin, hmapout, sqliteSum_eq_sum _ hin0 hin, sqliteSum_eq_sum _ hout0 hout]
  simp [netDelta]

theorem rebuildRows_alookup (ts : List Transfer) :
    ∀ (addrs : List String), addrs.Nodup →
      (∀ a ∈ addrs, rebuildRow ts a = some (netDelta ts a)) →
      ∃ r, rebuildRows ts addrs = some r ∧
        ∀ a, alookup r a =
          if a ∈ addrs ∧ 0 < netDelta ts a then some ((netDelta ts a).toNat) else none := by
  intro addrs
  induction addrs with
  | nil =>
    intro _ _
    refine ⟨[], rfl, ?_⟩
    intro a
    rw [if_neg (by simp)]
    rfl
  | cons a0 rest ih =>
    intro hnd hrow
    rw [List.nodup_cons] at hnd
    obtain ⟨r', hr', hlook⟩ := ih hnd.2 (fun a ha => hrow a (List.mem_cons_of_mem _ ha))
    refine ⟨if 0 < netDelta ts a0 then (a0, (netDelta ts a0).toNat) :: r' else r', ?_, ?_⟩
    · simp only [rebuildRows]
      rw [hrow a0 (List.mem_cons_self _ _), hr']
      simp only [Option.some_bind]
    · intro a
      by_cases ha : a = a0
      · subst ha
        have hnl : alookup r' a = none := by
          rw [hlook a, if_neg (fun hc => hnd.1 hc.1)]
        by_cases hpos : 0 < netDelta ts a
        · rw [if_pos hpos, if_pos ⟨List.mem_cons_self _ _, hpos⟩]
          simp [alookup]
        · rw [if_neg hpos, if_neg (fun hc => hpos hc.2), hnl]
      · have hstep : alookup (if 0 < netDelta ts a0
            then (a0, (netDelta ts a0).toNat) :: r' else r') a = alookup r' a := by
          split_ifs with hc
          · have ha0a : ¬ a0 = a := fun h => ha h.symm
            simp [alookup, ha0a]
          · rfl
        rw [hstep, hlook a]
        by_cases hm : a ∈ rest ∧ 0 < netDelta ts a
        · rw [if_pos hm, if_pos ⟨List.mem_cons_of_mem _ hm.1, hm.2⟩]
        · rw [if_neg hm,
            if_neg (fun hc => hm ⟨(List.mem_cons.mp hc.1).resolve_left ha, hc.2⟩)]

theorem mem_rebuildRows (ts : List Transfer) :
    ∀ (addrs : List String) (r : List (String × Nat)), rebuildRows ts addrs = some r →
      ∀ p ∈ r, p.1 ∈ addrs ∧ 0 < p.2 := by
  intro addrs
  induction addrs with
  | nil =>
    intro r hr p hp
    simp only [rebuildRows, Option.some_inj] at hr
    subst hr
    simp at hp
  | cons a0 rest ih =>
    intro r hr p hp
    simp only [rebuildRows] at hr
    cases hv : rebuildRow ts a0 with
    | none =>
      rw [hv] at hr
      simp at hr
    | some v =>
      rw [hv] at hr
      cases hrs : rebuildRows ts rest with
      | none =>
        rw [hrs] at hr
        simp at hr
      | some r' =>
        rw [hrs] at hr
        simp only [Option.some_bind, Option.some_inj] at hr
        subst hr
        split_ifs at hp with hpos
        · rcases List.mem_cons.mp hp with rfl | hm
          · refine ⟨List.mem_cons_self _ _, ?_⟩
            simp only
            omega
          · have := ih r' hrs p hm
            exact ⟨List.mem_cons_of_mem _ this.1, this.2⟩
        · have := ih r' hrs p hp
          exact ⟨List.mem_cons_of_mem _ this.1, this.2⟩

theorem mem_addressesOf (ts : List Transfer) (a : String) :
    a ∈ addressesOf ts ↔ isAffected ts a := by
  unfold addressesOf isAffected
  rw [List.mem_dedup, List.mem_filter]
  simp only [List.mem_append, List.mem_map, decide_eq_true_eq]
  constructor
  · rintro ⟨h1, h2⟩
    refine ⟨h2, ?_⟩
    rcases h1 with ⟨t, ht, rfl⟩ | ⟨t, ht, rfl⟩
    · exact ⟨t, ht, Or.inr rfl⟩
    · exact ⟨t, ht, Or.inl rfl⟩
  · rintro ⟨hz, t, ht, hft | htt⟩
    · exact ⟨Or.inr ⟨t, ht, hft⟩, hz⟩
    · exact ⟨Or.inl ⟨t, ht, htt⟩, hz⟩

theorem addressesOf_nodup (ts : List Transfer) : (addressesOf ts).Nodup :=
  List.nodup_dedup _

theorem netDelta_eq_zero_of_not_affected (ts : List Transfer) (a : String)
    (h : ¬ isAffected ts a) : netDelta ts a = 0 := by
  induction ts with
  | nil => exact netDelta_nil a
  | cons t rest ih =>
    rw [isAffected_cons] at h
    have h1 : ¬ ((t.from_address = a ∨ t.to_address = a) ∧ a ≠ ZERO_ADDRESS) :=
      fun hc => h (Or.inl hc)
    have h2 : ¬ isAffected rest a := fun hc => h (Or.inr hc)
    rw [netDelta_cons, deltaOf_eq_zero t a h1, ih h2, add_zero]

theorem isAffected_mono (ts ts' : List Transfer) (hsub : ∀ t ∈ ts', t ∈ ts) (a : String)
    (h : isAffected ts' a) : isAffected ts a := by
  obtain ⟨hz, t, ht, hd⟩ := h
  exact ⟨hz, t, hsub t ht, hd⟩

/-! The incremental path over a batched transfer stream. -/

theorem runBatches_alookup (batches : List (List Transfer)) :
    (∀ i < batches.length, ∀ a, 0 ≤ netDelta ((batches.take i).flatten) a) →
    ∀ a, alookup (batches.foldl update_balances_from_transfers []) a =
      if 0 < netDelta batches.flatten a
      then some ((netDelta batches.flatten a).toNat) else none := by
  induction batches using List.reverseRecOn with
  | nil =>
    intro _ a
    simp [alookup, netDelta_nil]
  | append_singleton bs c ih =>
    intro hpre a
    have hpre' : ∀ i < bs.length, ∀ a, 0 ≤ netDelta ((bs.take i).flatten) a := by
      intro i hi a'
      have := hpre i (by simp; omega) a'
      rwa [List.take_append_of_le_length (le_of_lt hi)] at this
    have hlast : 0 ≤ netDelta bs.flatten a := by
      have := hpre bs.length (by simp) a
      rwa [List.take_left] at this
    have hcur : balCurrent (bs.foldl update_balances_from_transfers []) a
        = netDelta bs.flatten a := by
      unfold balCurrent
      rw [ih hpre' a]
      by_cases hpos : 0 < netDelta bs.flatten a
      · rw [if_pos hpos]
        exact Int.toNat_of_nonneg (le_of_lt hpos)
      · rw [if_neg hpos]
        show (0 : Int) = netDelta bs.flatten a
        omega
    rw [List.foldl_append, List.foldl_cons, List.foldl_nil, update_balances_alookup,
      List.flatten_append]
    have hflat : ([c] : List (List Transfer)).flatten = c := by simp
    rw [hflat, netDelta_append]
    by_cases haff : isAffected c a
    · rw [if_pos haff, hcur]
    · rw [if_neg haff, netDelta_eq_zero_of_not_affected c a haff, add_zero, ih hpre' a]

/-! Address-type table and smart-wallet recheck. -/

theorem typeUpsert_alookup (types : List (String × Bool)) (k : String) (e : Bool) (a : String) :
    alookup (typeUpsert types k e) a = if a = k then some e else alookup types a := by
  unfold typeUpsert
  exact upsert_alookup types k e a

theorem batch_set_alookup (updates : List (String × Bool)) :
    ∀ (types : List (String × Bool)) (a : String), (updates.map Prod.fst).Nodup →
      alookup (batch_set_address_types types updates) a =
        (alookup updates a).elim (alookup types a) some := by
  induction updates with
  | nil =>
    intro types a _
    simp [batch_set_address_types, alookup]
  | cons u rest ih =>
    intro types a hnd
    obtain ⟨k, e⟩ := u
    simp only [List.map_cons, List.nodup_cons] at hnd
    have hfold : batch_set_address_types types ((k, e) :: rest)
        = batch_set_address_types (typeUpsert types k e) rest := by
      simp [batch_set_address_types]
    rw [hfold, ih (typeUpsert types k e) a hnd.2]
    by_cases hak : a = k
    · subst hak
      have hrest : alookup rest a = none := by
        rw [alookup_eq_none_iff]
        exact hnd.1
      have hcons : alookup ((a, e) :: rest) a = some e := by simp [alookup]
      rw [hrest, hcons]
      simp only [Option.elim_none, Option.elim_some]
      rw [typeUpsert_alookup, if_pos rfl]
    · have hka : ¬ k = a := fun h => hak h.symm
      have hcons : alookup ((k, e) :: rest) a = alookup rest a := by simp [alookup, hka]
      rw [hcons]
      cases hr : alookup rest a with
      | none =>
        simp only [Option.elim_none]
        rw [typeUpsert_alookup, if_neg hak]
      | some e' => simp only [Option.elim_some]

theorem alookup_map_pair_true (l : List String) (a : String) :
    alookup (l.map (fun x => (x, true))) a = if a ∈ l then some true else none := by
  induction l with
  | nil => simp [alookup]
  | cons x rest ih =>
    simp only [List.map_cons]
    by_cases hx : x = a
    · subst hx
      simp [alookup]
    · have hax : ¬ a = x := fun h => hx h.symm
      simp only [alookup, if_neg hx, ih, List.mem_cons]
      by_cases hm : a ∈ rest
      · rw [if_pos hm, if_pos (Or.inr hm)]
      · rw [if_neg hm, if_neg (by tauto)]

theorem mem_get_contract_addresses (types : List (String × Bool))
    (hnd : (types.map Prod.fst).Nodup) (a : String) :
    a ∈ get_contract_addresses types ↔ alookup types a = some false := by
  unfold get_contract_addresses
  rw [alookup_eq_some_iff_mem types hnd]
  simp only [List.mem_map, List.mem_filter, decide_eq_true_eq]
  constructor
  · rintro ⟨p, ⟨hp, hf⟩, rfl⟩
    have hpe : p = (p.1, false) := by
      obtain ⟨p1, p2⟩ := p
      simp only at hf ⊢
      rw [hf]
    rw [← hpe]
    exact hp
  · intro h
    exact ⟨(a, false), ⟨h, rfl⟩, rfl⟩

theorem get_contract_addresses_nodup (types : List (String × Bool))
    (hnd : (types.map Prod.fst).Nodup) : (get_contract_addresses types).Nodup := by
  unfold get_contract_addresses
  exact List.Nodup.sublist (List.Sublist.map Prod.fst (List.filter_sublist _)) hnd

/-! Adaptive batch size. -/

theorem stepBatch_le (s : IndexerState) (e : BatchEvent) (h : MIN_BATCH ≤ s.batch_size) :
    (stepBatch s e).batch_size ≤ s.batch_size ∧ MIN_BATCH ≤ (stepBatch s e).batch_size := by
  cases e with
  | success => exact ⟨le_rfl, h⟩
  | rangeError =>
    refine ⟨?_, ?_⟩
    · show max MIN_BATCH (s.batch_size / 2) ≤ s.batch_size
      exact max_le h (Nat.div_le_self _ _)
    · exact le_max_left _ _
  | otherError =>
    unfold stepBatch
    dsimp only
    split_ifs with hc
    · refine ⟨?_, ?_⟩
      · show max MIN_BATCH (s.batch_size / 2) ≤ s.batch_size
        exact max_le h (Nat.div_le_self _ _)
      · exact le_max_left _ _
    · exact ⟨le_rfl, h⟩

theorem foldl_stepBatch_le (events : List BatchEvent) :
    ∀ (s : IndexerState), MIN_BATCH ≤ s.batch_size →
      (events.foldl stepBatch s).batch_size ≤ s.batch_size ∧
        MIN_BATCH ≤ (events.foldl stepBatch s).batch_size := by
  induction events with
  | nil =>
    intro s h
    exact ⟨le_rfl, h⟩
  | cons e rest ih =>
    intro s h
    have hstep := stepBatch_le s e h
    have hrest := ih (stepBatch s e) hstep.2
    rw [List.foldl_cons]
    exact ⟨le_trans hrest.1 hstep.1, hrest.2⟩

/-! Claim theorems. -/

/-- C1: for every balances table, batch of transfer tuples and address,
`update_balances_from_transfers` computes one net signed delta per address over
the batch (adding `value` per occurrence as recipient, subtracting per occurrence
as sender, skipping the zero address on either side) and, for each affected
address, sets the stored balance to `current + delta` where `current` is 0 when
no row exists, deleting the row when the result is zero or negative and upserting
the new value otherwise; addresses that are not affected keep their row. -/
theorem update_balances_from_transfers_spec (b : List (String × Nat)) (ts : List Transfer)
    (a : String) :
    (isAffected ts a →
      alookup (update_balances_from_transfers b ts) a =
        (if 0 < balCurrent b a + netDelta ts a
         then some ((balCurrent b a + netDelta ts a).toNat) else none)) ∧
    (¬ isAffected ts a →
      alookup (update_balances_from_transfers b ts) a = alookup b a) := by
  constructor
  · intro h
    rw [update_balances_alookup, if_pos h]
  · intro h
    rw [update_balances_alookup, if_neg h]

/-- Witness for C1: sender `0xA` with stored balance 2 sends 3 to `0xB`, so its
net result `2 - 3 = -1` is not positive and its row is deleted. -/
theorem update_balances_from_transfers_spec_witness :
    isAffected [⟨1, "0xh1", 0, "0xA", "0xB", 3⟩] "0xA" ∧
      alookup (update_balances_from_transfers [("0xA", 2)]
          [⟨1, "0xh1", 0, "0xA", "0xB", 3⟩]) "0xA" =
        (if 0 < balCurrent [("0xA", 2)] "0xA"
              + netDelta [⟨1, "0xh1", 0, "0xA", "0xB", 3⟩] "0xA"
         then some ((balCurrent [("0xA", 2)] "0xA"
              + netDelta [⟨1, "0xh1", 0, "0xA", "0xB", 3⟩] "0xA").toNat) else none) :=
  ⟨by decide,
    (update_balances_from_transfers_spec [("0xA", 2)]
      [⟨1, "0xh1", 0, "0xA", "0xB", 3⟩] "0xA").1 (by decide)⟩

/-- C10: `get_last_indexed_block` returns 0 for a chain that has no `sync_state`
row instead of failing. -/
theorem get_last_indexed_block_default (s : List (Nat × Nat)) (chain_id : Nat)
    (h : chain_id ∉ s.map Prod.fst) : get_last_indexed_block s chain_id = 0 := by
  unfold get_last_indexed_block
  rw [(alookup_eq_none_iff s chain_id).mpr h]

/-- Witness for C10: chain 1 has no row in a store that only knows chain 2. -/
theorem get_last_indexed_block_default_witness :
    (1 ∉ ([(2, 7)] : List (Nat × Nat)).map Prod.fst) ∧
      get_last_indexed_block [(2, 7)] 1 = 0 :=
  ⟨by decide, get_last_indexed_block_default [(2, 7)] 1 (by decide)⟩

/-- C4 counterexample: with `last_indexed_block = 5` stored for chain 1, calling
`update_last_indexed_block(1, 3)` with `3 < 5` overwrites the stored value with 3:
the SQL `UPDATE` has no `n ≥ current` guard, so the function by itself lets the
checkpoint decrease. -/
theorem update_last_indexed_block_not_guarded :
    get_last_indexed_block [(1, 5)] 1 = 5 ∧
    (3 : Nat) < 5 ∧
    get_last_indexed_block (update_last_indexed_block [(1, 5)] 1 3) 1 = 3 := by
  decide

/-- C4 amended: `update_last_indexed_block(chain_id, n)` unconditionally sets the
chain's stored `last_indexed_block` to `n`, even when `n` is smaller than the
current value, and is a no-op when the chain has no `sync_state` row; checkpoint
monotonicity is not enforced by the store but depends on callers passing
non-decreasing values. -/
theorem update_last_indexed_block_spec (s : List (Nat × Nat)) (chain_id n : Nat) :
    (chain_id ∈ s.map Prod.fst →
      alookup (update_last_indexed_block s chain_id n) chain_id = some n) ∧
    (chain_id ∉ s.map Prod.fst → update_last_indexed_block s chain_id n = s) := by
  induction s with
  | nil => exact ⟨fun h => by simp at h, fun _ => rfl⟩
  | cons p rest ih =>
    obtain ⟨k, v⟩ := p
    constructor
    · intro h
      by_cases hk : k = chain_id
      · subst hk
        unfold update_last_indexed_block
        rw [List.map_cons]
        dsimp only
        rw [if_pos rfl]
        simp [alookup]
      · have hmem : chain_id ∈ rest.map Prod.fst := by
          rcases List.mem_cons.mp h with heq | hm
          · exact absurd heq.symm hk
          · exact hm
        have hrest := ih.1 hmem
        unfold update_last_indexed_block at hrest ⊢
        rw [List.map_cons]
        dsimp only
        rw [if_neg hk]
        simp only [alookup, if_neg hk]
        exact hrest
    · intro h
      have hk : ¬ k = chain_id := fun heq => h (by simp [heq])
      have hrest : chain_id ∉ rest.map Prod.fst := fun hm => h (by simp [hm])
      have hr := ih.2 hrest
      unfold update_last_indexed_block at hr ⊢
      rw [List.map_cons]
      dsimp only
      rw [if_neg hk, hr]

/-- Witness for C4 amended: the overwrite of 5 by the smaller value 3 on chain 1. -/
theorem update_last_indexed_block_spec_witness :
    (1 ∈ ([(1, 5)] : List (Nat × Nat)).map Prod.fst) ∧
      alookup (update_last_indexed_block [(1, 5)] 1 3) 1 = some 3 :=
  ⟨by decide, (update_last_indexed_block_spec [(1, 5)] 1 3).1 (by decide)⟩

/-- C7: for every address whose bytecode was obtained as the string `code`,
`batch_check_eoa` classifies it as EOA exactly when the code is `"0x"` or empty
or its lowercase form starts with one of the (lowercased) smart-wallet patterns
`0xef01`, `0xef0100`, `0x363d3d373d3d3d363d73`; when no usable response entry
was obtained for the address, it is classified as non-EOA. -/
theorem batch_check_eoa_entry_spec (code : String) :
    (batch_check_eoa_entry (some (some code)) = true ↔
      code = "0x" ∨ code = "" ∨
        ∃ p ∈ SMART_WALLET_PATTERNS, code.toLower.startsWith p.toLower = true) ∧
    batch_check_eoa_entry none = false := by
  refine ⟨?_, rfl⟩
  show (if code = "0x" ∨ code = "" then true
      else if is_smart_wallet code then true else false) = true ↔ _
  by_cases h : code = "0x" ∨ code = ""
  · rw [if_pos h]
    constructor
    · intro _
      tauto
    · intro _
      rfl
  · rw [if_neg h]
    have h' : code ≠ "0x" ∧ code ≠ "" := ⟨fun hc => h (Or.inl hc), fun hc => h (Or.inr hc)⟩
    cases hsw : is_smart_wallet code with
    | false =>
      rw [if_neg (by simp [hsw])]
      constructor
      · intro hf
        exact absurd hf (by simp)
      · rintro (h1 | h1 | ⟨p, hp, hs⟩)
        · exact absurd h1 h'.1
        · exact absurd h1 h'.2
        · unfold is_smart_wallet at hsw
          rw [if_neg (by tauto)] at hsw
          rw [List.any_eq_false] at hsw
          exact absurd hs (by simpa using hsw p hp)
    | true =>
      rw [if_pos (by simp [hsw])]
      constructor
      · intro _
        right
        right
        unfold is_smart_wallet at hsw
        rw [if_neg (by tauto)] at hsw
        rw [List.any_eq_true] at hsw
        obtain ⟨p, hp, hs⟩ := hsw
        exact ⟨p, hp, hs⟩
      · intro _
        rfl

/-- C9 counterexample: with a configured global default batch size of 50 (allowed
by `app/config.py`, which enforces no minimum) and a chain id outside
`DEFAULT_BATCH_SIZES`, the very first range-too-large error sets the batch size
to `max(100, 50 / 2) = 100 > 50`: the adaptive batch size increased. -/
theorem batch_size_can_increase :
    initial_batch_size 999 50 = 50 ∧
    (stepBatch { batch_size := initial_batch_size 999 50, consecutive_errors := 0 }
        BatchEvent.rangeError).batch_size = 100 ∧
    (50 : Nat) < 100 := by
  decide

/-- C9 amended: provided the starting batch size is at least `MIN_BATCH = 100`
(which holds for every per-chain entry of `DEFAULT_BATCH_SIZES` and for the
shipped global default of 10000, but not for an arbitrary configured value),
the adaptive batch size never increases over any sequence of `index_blocks`
iteration outcomes and stays at least `MIN_BATCH`: range errors and third
consecutive other errors halve it with floor `MIN_BATCH`, and no outcome raises
it.  Since the bound `MIN_BATCH ≤ batch_size` is preserved, instantiating the
theorem at any reachable state gives non-increase between any two points of the
run. -/
theorem batch_size_monotone (s : IndexerState) (events : List BatchEvent)
    (h : MIN_BATCH ≤ s.batch_size) :
    (runBatchEvents s events).batch_size ≤ s.batch_size ∧
      MIN_BATCH ≤ (runBatchEvents s events).batch_size := by
  unfold runBatchEvents
  exact foldl_stepBatch_le events s h

/-- Witness for C9 amended: chain 1's default of 1000 over a range error, another
error and a success. -/
theorem batch_size_monotone_witness :
    MIN_BATCH ≤ (1000 : Nat) ∧
      ((runBatchEvents { batch_size := 1000, consecutive_errors := 0 }
          [BatchEvent.rangeError, BatchEvent.otherError, BatchEvent.success]).batch_size ≤ 1000 ∧
        MIN_BATCH ≤ (runBatchEvents { batch_size := 1000, consecutive_errors := 0 }
          [BatchEvent.rangeError, BatchEvent.otherError, BatchEvent.success]).batch_size) :=
  ⟨by decide,
    batch_size_monotone { batch_size := 1000, consecutive_errors := 0 }
      [BatchEvent.rangeError, BatchEvent.otherError, BatchEvent.success] (by decide)⟩

/-- C2: re-applying an already-applied batch through the batch-processing steps
(`insert_transfers`, `update_balances_from_transfers`,
`update_last_indexed_block` with the same end block) leaves the transfers table
and `last_indexed_block` unchanged, but applies the balance deltas a second
time: after re-processing the single mint `ZERO → 0xA` of value 100, the stored
balance of `0xA` is 200 instead of 100. -/
theorem reapply_batch_doubles_balances :
    processBatch (processBatch { transfers := [], balances := [], last_indexed := 0 }
        [⟨1, "0xa1", 0, ZERO_ADDRESS, "0xA", 100⟩] 1)
        [⟨1, "0xa1", 0, ZERO_ADDRESS, "0xA", 100⟩] 1
      = { transfers := [⟨1, "0xa1", 0, ZERO_ADDRESS, "0xA", 100⟩],
          balances := [("0xA", 200)], last_indexed := 1 } ∧
    processBatch { transfers := [], balances := [], last_indexed := 0 }
        [⟨1, "0xa1", 0, ZERO_ADDRESS, "0xA", 100⟩] 1
      = { transfers := [⟨1, "0xa1", 0, ZERO_ADDRESS, "0xA", 100⟩],
          balances := [("0xA", 100)], last_indexed := 1 } := by
  decide

theorem runBalanceOps_preserve (ops : List BalanceOp) :
    ∀ (b : List (String × Nat)), (∀ q ∈ b, q.1 ≠ ZERO_ADDRESS ∧ 0 < q.2) →
      ∀ q ∈ ops.foldl applyBalanceOp b, q.1 ≠ ZERO_ADDRESS ∧ 0 < q.2 := by
  induction ops with
  | nil =>
    intro b hb q hq
    exact hb q hq
  | cons op rest ih =>
    intro b hb q hq
    rw [List.foldl_cons] at hq
    refine ih (applyBalanceOp b op) ?_ q hq
    intro q' hq'
    cases op with
    | update ts =>
      rcases mem_update_balances b ts q' hq' with h | h
      · exact hb q' h
      · exact h
    | rebuild ts =>
      simp only [applyBalanceOp] at hq'
      cases hr : rebuild_all_balances ts with
      | none =>
        rw [hr] at hq'
        exact hb q' hq'
      | some r =>
        rw [hr] at hq'
        unfold rebuild_all_balances at hr
        have hmem := mem_rebuildRows ts (addressesOf ts) r hr q' hq'
        exact ⟨((mem_addressesOf ts q'.1).mp hmem.1).1, hmem.2⟩

/-- C5: after any sequence of balance-writing store operations
(`update_balances_from_transfers` batches and `rebuild_all_balances` runs over
any stored transfers) starting from an empty store, the balances table never
contains a row for the zero address nor a row whose value is zero or negative. -/
theorem balances_invariant (ops : List BalanceOp) (p : String × Nat)
    (hp : p ∈ runBalanceOps ops) : p.1 ≠ ZERO_ADDRESS ∧ 0 < p.2 :=
  runBalanceOps_preserve ops [] (by simp) p hp

/-- Witness for C5: one mint batch followed by a rebuild over the same transfer
leaves exactly the positive non-zero-address row `(0xA, 100)`. -/
theorem balances_invariant_witness :
    (("0xA", 100) ∈ runBalanceOps
        [BalanceOp.update [⟨1, "0xa1", 0, ZERO_ADDRESS, "0xA", 100⟩],
         BalanceOp.rebuild [⟨1, "0xa1", 0, ZERO_ADDRESS, "0xA", 100⟩]]) ∧
      (("0xA", (100 : Nat)).1 ≠ ZERO_ADDRESS ∧ 0 < ("0xA", (100 : Nat)).2) :=
  ⟨by decide,
    balances_invariant
      [BalanceOp.update [⟨1, "0xa1", 0, ZERO_ADDRESS, "0xA", 100⟩],
       BalanceOp.rebuild [⟨1, "0xa1", 0, ZERO_ADDRESS, "0xA", 100⟩]]
      ("0xA", 100) (by decide)⟩

/-- C8: `recheck_smart_wallets` re-runs classification exactly over the addresses
currently stored with `is_eoa = false`, and the only writes it performs set
`is_eoa = true` (for the addresses the classifier now reports as EOA); in
particular no address stored with `is_eoa = true` is ever rewritten to
`is_eoa = false`, and addresses the classifier still reports as contracts keep
their row unchanged. -/
theorem recheck_smart_wallets_spec (types : List (String × Bool)) (oracle : String → Bool)
    (hnd : (types.map Prod.fst).Nodup) (a : String) :
    alookup (recheck_smart_wallets types oracle) a =
      if alookup types a = some false ∧ oracle a = true
      then some true
      else alookup types a := by
  unfold recheck_smart_wallets
  have hkeysnd : ((((get_contract_addresses types).filter oracle).map
      (fun a => (a, true))).map Prod.fst).Nodup := by
    rw [List.map_map]
    have hcomp : (Prod.fst ∘ fun a : String => (a, true)) = id := by
      funext x
      rfl
    rw [hcomp, List.map_id]
    exact List.Nodup.filter _ (get_contract_addresses_nodup types hnd)
  rw [batch_set_alookup _ types a hkeysnd, alookup_map_pair_true]
  by_cases hmem : a ∈ (get_contract_addresses types).filter oracle
  · rw [if_pos hmem]
    simp only [Option.elim_some]
    rw [List.mem_filter] at hmem
    have h1 : alookup types a = some false :=
      (mem_get_contract_addresses types hnd a).mp hmem.1
    rw [if_pos ⟨h1, hmem.2⟩]
  · rw [if_neg hmem]
    simp only [Option.elim_none]
    by_cases hc : alookup types a = some false ∧ oracle a = true
    · exfalso
      apply hmem
      rw [List.mem_filter]
      exact ⟨(mem_get_contract_addresses types hnd a).mpr hc.1, hc.2⟩
    · rw [if_neg hc]

/-- Witness for C8: address `0xX` stored as contract is promoted to EOA by a
recheck whose classifier reports it as EOA, while `0xY` stays EOA. -/
theorem recheck_smart_wallets_spec_witness :
    ((([("0xX", false), ("0xY", true)]) : List (String × Bool)).map Prod.fst).Nodup ∧
      alookup (recheck_smart_wallets [("0xX", false), ("0xY", true)]
          (fun a => a == "0xX")) "0xX" =
        (if alookup [("0xX", false), ("0xY", true)] "0xX" = some false
              ∧ (fun a : String => a == "0xX") "0xX" = true
         then some true
         else alookup [("0xX", false), ("0xY", true)] "0xX") :=
  ⟨by decide,
    recheck_smart_wallets_spec [("0xX", false), ("0xY", true)]
      (fun a => a == "0xX") (by decide) "0xX"⟩

/-- C6 counterexample: with stored balances 2^63 and 2^63 + 1 (decimal text
denoting integers wider than 64 bits), `ORDER BY CAST(balance AS INTEGER) DESC`
clamps both sort keys to 9223372036854775807, so the two rows tie and keep table
order: the returned list has the numerically smaller balance first, violating
descending numeric order on the unbounded integers. -/
theorem get_holders_not_numeric_order :
    get_holders_with_balances [("0xA", 9223372036854775808), ("0xB", 9223372036854775809)]
      = [("0xA", 9223372036854775808), ("0xB", 9223372036854775809)] ∧
    ¬ List.Sorted (fun x y : String × Nat => y.2 ≤ x.2)
        (get_holders_with_balances
          [("0xA", 9223372036854775808), ("0xB", 9223372036854775809)]) := by
  have heq : get_holders_with_balances
      [("0xA", 9223372036854775808), ("0xB", 9223372036854775809)]
      = [("0xA", 9223372036854775808), ("0xB", 9223372036854775809)] := by decide
  refine ⟨heq, ?_⟩
  rw [heq]
  intro hs
  have h2 := (List.sorted_cons.mp hs).1 ("0xB", 9223372036854775809) (by simp)
  simp only at h2
  omega

/-- C6 amended: `get_holders_with_balances` returns a permutation of the
chain's balance rows ordered by `CAST(balance AS INTEGER) DESC`, i.e. descending
in the 64-bit clamped value of the decimal text; whenever every stored balance
is at most 2^63 - 1 the clamp is the identity and the rows are in descending
numeric order of the unbounded integers (it is never a lexicographic string
order). -/
theorem get_holders_with_balances_sorted (b : List (String × Nat)) :
    (get_holders_with_balances b).Perm b ∧
    List.Sorted holderGE (get_holders_with_balances b) ∧
    ((∀ p ∈ b, (p.2 : Int) ≤ I64_MAX) →
      List.Sorted (fun x y : String × Nat => y.2 ≤ x.2) (get_holders_with_balances b)) := by
  refine ⟨List.perm_insertionSort _ _, List.sorted_insertionSort holderGE b, ?_⟩
  intro hb
  have hperm := List.perm_insertionSort holderGE b
  have hsorted := List.sorted_insertionSort holderGE b
  unfold get_holders_with_balances
  refine List.Pairwise.imp_of_mem ?_ hsorted
  intro x y hx hy hr
  have hxb : (x.2 : Int) ≤ I64_MAX := hb x (hperm.mem_iff.mp hx)
  have hyb : (y.2 : Int) ≤ I64_MAX := hb y (hperm.mem_iff.mp hy)
  unfold holderGE castValue at hr
  rw [min_eq_left hxb, min_eq_left hyb] at hr
  exact_mod_cast hr

/-- Witness for C6 amended: two small balances come back as a permutation in
descending numeric order. -/
theorem get_holders_with_balances_sorted_witness :
    ((get_holders_with_balances [("0xA", 5), ("0xB", 7)]).Perm [("0xA", 5), ("0xB", 7)]) ∧
      List.Sorted (fun x y : String × Nat => y.2 ≤ x.2)
        (get_holders_with_balances [("0xA", 5), ("0xB", 7)]) :=
  ⟨(get_holders_with_balances_sorted [("0xA", 5), ("0xB", 7)]).1,
    (get_holders_with_balances_sorted [("0xA", 5), ("0xB", 7)]).2.2 (by decide)⟩

/-- C3 counterexample: for the single stored transfer `ZERO → 0xA` with value
2^63, the incremental path (Python unbounded integers) stores the exact balance
9223372036854775808, while the rebuild query's `CAST(value AS INTEGER)` clamps
the value to 9223372036854775807: the two paths do not produce the same
`(address, balance)` set, so the equivalence with exact unbounded-integer
arithmetic fails. -/
theorem rebuild_differs_from_incremental :
    update_balances_from_transfers []
        [⟨1, "0xh1", 0, ZERO_ADDRESS, "0xA", 9223372036854775808⟩]
      = [("0xA", 9223372036854775808)] ∧
    rebuild_all_balances [⟨1, "0xh1", 0, ZERO_ADDRESS, "0xA", 9223372036854775808⟩]
      = some [("0xA", 9223372036854775807)] ∧
    (9223372036854775807 : Nat) ≠ 9223372036854775808 := by
  decide

/-- C3 amended: `rebuild_all_balances` produces the same `(address, balance)`
rows (strictly positive balances only) as applying
`update_balances_from_transfers` batch by batch starting from an empty balances
table, regardless of how the transfer stream is split into batches, PROVIDED
(a) every transfer value and every per-address incoming and outgoing total fits
in a signed 64-bit integer, so the rebuild query's `CAST`/`SUM` arithmetic is
exact, and (b) at every batch boundary every address has a non-negative running
net (otherwise the incremental path clamps a deleted negative balance to zero
while the rebuild keeps the exact signed sum).  Both sides are compared as
lookup functions, which determines the row sets since both tables have unique
addresses. -/
theorem rebuild_matches_incremental (batches : List (List Transfer))
    (hval : ∀ t ∈ batches.flatten, (t.value : Int) ≤ I64_MAX)
    (hin : ∀ a ∈ addressesOf batches.flatten, (incomingVals batches.flatten a).sum ≤ I64_MAX)
    (hout : ∀ a ∈ addressesOf batches.flatten, (outgoingVals batches.flatten a).sum ≤ I64_MAX)
    (hpre : ∀ i < batches.length, ∀ a ∈ addressesOf batches.flatten,
      0 ≤ netDelta ((batches.take i).flatten) a) :
    ∃ r, rebuild_all_balances batches.flatten = some r ∧
      ∀ a, alookup r a = alookup (batches.foldl update_balances_from_transfers []) a := by
  have hpre' : ∀ i < batches.length, ∀ a, 0 ≤ netDelta ((batches.take i).flatten) a := by
    intro i hi a
    by_cases hmem : a ∈ addressesOf batches.flatten
    · exact hpre i hi a hmem
    · have hnot : ¬ isAffected ((batches.take i).flatten) a := by
        intro haff
        apply hmem
        rw [mem_addressesOf]
        refine isAffected_mono _ _ ?_ a haff
        intro t ht
        rw [List.mem_flatten] at ht ⊢
        obtain ⟨l, hl, htl⟩ := ht
        exact ⟨l, List.take_subset _ _ hl, htl⟩
      rw [netDelta_eq_zero_of_not_affected _ _ hnot]
  have hrows : ∀ a ∈ addressesOf batches.flatten,
      rebuildRow batches.flatten a = some (netDelta batches.flatten a) := by
    intro a ha
    exact rebuildRow_eq _ a hval (hin a ha) (hout a ha)
  obtain ⟨r, hr, hlook⟩ := rebuildRows_alookup batches.flatten (addressesOf batches.flatten)
    (addressesOf_nodup _) hrows
  refine ⟨r, hr, ?_⟩
  intro a
  rw [hlook a, runBatches_alookup batches hpre' a]
  by_cases hpos : 0 < netDelta batches.flatten a
  · rw [if_pos hpos]
    have hmem : a ∈ addressesOf batches.flatten := by
      rw [mem_addressesOf]
      by_contra hn
      rw [netDelta_eq_zero_of_not_affected _ _ hn] at hpos
      exact lt_irrefl 0 hpos
    rw [if_pos ⟨hmem, hpos⟩]
  · rw [if_neg hpos, if_neg (fun hc => hpos hc.2)]

/-- Witness for C3 amended: the mint `ZERO → 0xA` of 100 at block 10 followed in
a second batch by `0xA → 0xB` of 30 at block 11; rebuild and the two-batch
incremental path agree on every address. -/
theorem rebuild_matches_incremental_witness :
    ∃ r, rebuild_all_balances
        (([[⟨10, "0xh1", 0, ZERO_ADDRESS, "0xA", 100⟩],
           [⟨11, "0xh2", 0, "0xA", "0xB", 30⟩]] : List (List Transfer)).flatten) = some r ∧
      ∀ a, alookup r a =
        alookup (([[⟨10, "0xh1", 0, ZERO_ADDRESS, "0xA", 100⟩],
           [⟨11, "0xh2", 0, "0xA", "0xB", 30⟩]] : List (List Transfer)).foldl
             update_balances_from_transfers []) a :=
  rebuild_matches_incremental
    [[⟨10, "0xh1", 0, ZERO_ADDRESS, "0xA", 100⟩], [⟨11, "0xh2", 0, "0xA", "0xB", 30⟩]]
    (by decide) (by decide) (by decide) (by decide)
